import Mathlib

/-!
Verification of the GLM link-function, contrast and hypothesis-test core of the
draft-statsmodels repository.

Floating-point arrays are modelled by real numbers (`ℝ`); numpy ufuncs
(`np.log`, `np.exp`, `np.clip`, `np.sqrt`, `np.power`) become the
corresponding real functions.  `np.clip(x, lo, hi)` is `min (max x lo) hi`,
and `np.clip(x, lo, np.inf)` is `max x lo`.  External collaborators
(`scipy.stats` distributions, `numpy.linalg.pinv`/`svd`) are modelled by
function parameters constrained by their documented contracts.
-/

namespace Statsmodels

open Matrix

/-! ## scikits/statsmodels/family/links.py -/

/-- `Logit.tol = 1.0e-10` (class attribute). -/
noncomputable def Logit.tol : ℝ := 1e-10

/-- `Logit._clean(p) = np.clip(p, Logit.tol, 1. - Logit.tol)`. -/
noncomputable def Logit.clean (p : ℝ) : ℝ := min (max p Logit.tol) (1 - Logit.tol)

/-- `Logit.__call__(p)`: `p = self._clean(p); return np.log(p / (1. - p))`. -/
noncomputable def Logit.call (p : ℝ) : ℝ :=
  Real.log (Logit.clean p / (1 - Logit.clean p))

/-- `Logit.inverse(z)`: `t = np.exp(z); return t / (1. + t)`. -/
noncomputable def Logit.inverse (z : ℝ) : ℝ :=
  Real.exp z / (1 + Real.exp z)

/-- `Logit.deriv(p)`: `p = self._clean(p); return 1. / (p * (1 - p))`. -/
noncomputable def Logit.deriv (p : ℝ) : ℝ :=
  1 / (Logit.clean p * (1 - Logit.clean p))

/-- `Power.__call__(p) = np.power(p, self.power)`; the exponent is a float,
so this is the real power function. -/
noncomputable def Power.call (power p : ℝ) : ℝ := p ^ power

/-- `Power.inverse(z) = np.power(z, 1. / self.power)`. -/
noncomputable def Power.inverse (power z : ℝ) : ℝ := z ^ (1 / power)

/-- `Power.deriv(p) = self.power * np.power(p, self.power - 1)`. -/
noncomputable def Power.deriv (power p : ℝ) : ℝ := power * p ^ (power - 1)

/-- `Log.tol = 1.0e-10` (class attribute; `Log._clean` actually uses
`Logit.tol`, which has the same value). -/
noncomputable def Log.tol : ℝ := 1e-10

/-- `Log._clean(x) = np.clip(x, Logit.tol, np.inf)`. -/
noncomputable def Log.clean (x : ℝ) : ℝ := max x Logit.tol

/-- `Log.__call__(p)`: the source reads
`x = self._clean(p); return np.log(p)` -- the clipped value is assigned to
the local `x` and then *discarded*; the logarithm is taken of the raw
argument `p`.  The embedding keeps the dead binding to mirror the source. -/
noncomputable def Log.call (p : ℝ) : ℝ :=
  let x := Log.clean p
  Real.log p

/-- `Log.inverse(z) = np.exp(z)`. -/
noncomputable def Log.inverse (z : ℝ) : ℝ := Real.exp z

/-- `Log.deriv(p)`: `p = self._clean(p); return 1. / p`. -/
noncomputable def Log.deriv (p : ℝ) : ℝ := 1 / Log.clean p

/-- `CDFLink.__call__(p)`: `p = self._clean(p); return self.dbn.ppf(p)`.
The `scipy.stats` distribution is an external collaborator, modelled by the
function `ppf`.  `CDFLink` inherits `_clean` from `Logit`. -/
noncomputable def CDFLink.call (ppf : ℝ → ℝ) (p : ℝ) : ℝ := ppf (Logit.clean p)

/-- `CDFLink.inverse(z) = self.dbn.cdf(z)`. -/
def CDFLink.inverse (cdf : ℝ → ℝ) (z : ℝ) : ℝ := cdf z

/-- `CDFLink.deriv(p)`: `p = self._clean(p); return 1. / self.dbn.pdf(p)`. -/
noncomputable def CDFLink.deriv (pdf : ℝ → ℝ) (p : ℝ) : ℝ := 1 / pdf (Logit.clean p)

/-- `CLogLog.__call__(p)`: `p = self._clean(p); return np.log(-np.log(1-p))`
(`_clean` inherited from `Logit`). -/
noncomputable def CLogLog.call (p : ℝ) : ℝ :=
  Real.log (-Real.log (1 - Logit.clean p))

/-- `CLogLog.inverse(z) = 1 - np.exp(-np.exp(z))`. -/
noncomputable def CLogLog.inverse (z : ℝ) : ℝ :=
  1 - Real.exp (-Real.exp z)

/-- `CLogLog.deriv(p)`: `p = self._clean(p); return 1. / ((p-1)*(np.log(1-p)))`. -/
noncomputable def CLogLog.deriv (p : ℝ) : ℝ :=
  1 / ((Logit.clean p - 1) * Real.log (1 - Logit.clean p))

/-- `NegativeBinomial.tol = 1.0e-10` (class attribute). -/
noncomputable def NegativeBinomial.tol : ℝ := 1e-10

/-- `NegativeBinomial._clean(x) = np.clip(x, NegativeBinomial.tol, np.inf)`. -/
noncomputable def NegativeBinomial.clean (x : ℝ) : ℝ := max x NegativeBinomial.tol

/-- `NegativeBinomial.__call__(self, x)`: the body is
`p = self._clean(p); return np.log(p/(p+1/self.alpha))`, but the parameter is
named `x` and no variable `p` is in scope, so the very first statement raises
`NameError` for every input.  The call therefore never produces a value;
it is embedded as the always-failing computation `none`. -/
def NegativeBinomial.call (alpha x : ℝ) : Option ℝ := none

/-- `NegativeBinomial.inverse(z) = np.exp(z)/(self.alpha*(1-np.exp(z)))`. -/
noncomputable def NegativeBinomial.inverse (alpha z : ℝ) : ℝ :=
  Real.exp z / (alpha * (1 - Real.exp z))

/-- `NegativeBinomial.deriv(p) = 1/(p+self.alpha*p**2)`. -/
noncomputable def NegativeBinomial.deriv (alpha p : ℝ) : ℝ :=
  1 / (p + alpha * p ^ 2)

/-! ### Claims about the links -/

/-- C1: Round-trip law `inverse(call(p)) = p` on the valid unclamped domain.
It holds for Logit, Power, Log, CDFLink (given the distribution contract
`cdf (ppf p) = p`) and CLogLog; but for NegativeBinomial the call itself
raises `NameError` on every input (embedded as `none`), so the round trip
fails for that variant. -/
theorem C1_roundtrip :
    (∀ p : ℝ, Logit.tol ≤ p → p ≤ 1 - Logit.tol →
      Logit.inverse (Logit.call p) = p)
    ∧ (∀ pw p : ℝ, 0 < p → pw ≠ 0 →
      Power.inverse pw (Power.call pw p) = p)
    ∧ (∀ p : ℝ, Logit.tol ≤ p →
      Log.inverse (Log.call p) = p)
    ∧ (∀ (ppf cdf : ℝ → ℝ) (p : ℝ), Logit.tol ≤ p → p ≤ 1 - Logit.tol →
      cdf (ppf p) = p → CDFLink.inverse cdf (CDFLink.call ppf p) = p)
    ∧ (∀ p : ℝ, Logit.tol ≤ p → p ≤ 1 - Logit.tol →
      CLogLog.inverse (CLogLog.call p) = p)
    ∧ (∀ alpha p : ℝ, NegativeBinomial.call alpha p = none) := by
  have htol : (0:ℝ) < Logit.tol := by norm_num [Logit.tol]
  have htol1 : Logit.tol < 1 - Logit.tol := by norm_num [Logit.tol]
  have hclean : ∀ p : ℝ, Logit.tol ≤ p → p ≤ 1 - Logit.tol → Logit.clean p = p := by
    intro p h1 h2
    unfold Logit.clean
    rw [max_eq_left h1, min_eq_left h2]
  refine ⟨?_, ?_, ?_, ?_, ?_, fun _ _ => rfl⟩
  · intro p h1 h2
    have hp : 0 < p := lt_of_lt_of_le htol h1
    have h1p : 0 < 1 - p := lt_of_lt_of_le htol (by linarith)
    unfold Logit.inverse Logit.call
    rw [hclean p h1 h2, Real.exp_log (div_pos hp h1p)]
    field_simp
  · intro pw p hp hpw
    unfold Power.inverse Power.call
    rw [← Real.rpow_mul hp.le, mul_one_div_cancel hpw, Real.rpow_one]
  · intro p h1
    have hp : 0 < p := lt_of_lt_of_le htol h1
    show Real.exp (Log.call p) = p
    unfold Log.call
    exact Real.exp_log hp
  · intro ppf cdf p h1 h2 hrt
    unfold CDFLink.inverse CDFLink.call
    rw [hclean p h1 h2, hrt]
  · intro p h1 h2
    have hp : 0 < p := lt_of_lt_of_le htol h1
    have hp1 : p < 1 := lt_of_le_of_lt h2 (by norm_num [Logit.tol])
    have h1p : 0 < 1 - p := by linarith
    have hlogneg : Real.log (1 - p) < 0 := Real.log_neg h1p (by linarith)
    unfold CLogLog.inverse CLogLog.call
    rw [hclean p h1 h2, Real.exp_log (by linarith : 0 < -Real.log (1 - p)),
      neg_neg, Real.exp_log h1p]
    ring

/-- Witness for C1 at concrete inputs (Logit at 1/2, Power(2) at 3, Log at 1,
CDFLink with the identity distribution functions at 1/2, CLogLog at 1/2,
NegativeBinomial at alpha = 1, p = 1). -/
theorem C1_roundtrip_witness :
    (Logit.tol ≤ (1/2 : ℝ) ∧ (1/2 : ℝ) ≤ 1 - Logit.tol
      ∧ Logit.inverse (Logit.call (1/2)) = 1/2)
    ∧ ((0:ℝ) < 3 ∧ (2:ℝ) ≠ 0 ∧ Power.inverse 2 (Power.call 2 3) = 3)
    ∧ (Logit.tol ≤ (1:ℝ) ∧ Log.inverse (Log.call 1) = 1)
    ∧ (CDFLink.inverse id (CDFLink.call id (1/2)) = 1/2)
    ∧ (CLogLog.inverse (CLogLog.call (1/2)) = 1/2)
    ∧ NegativeBinomial.call 1 1 = none :=
  ⟨⟨by norm_num [Logit.tol], by norm_num [Logit.tol],
      C1_roundtrip.1 (1/2) (by norm_num [Logit.tol]) (by norm_num [Logit.tol])⟩,
    ⟨by norm_num, by norm_num,
      C1_roundtrip.2.1 2 3 (by norm_num) (by norm_num)⟩,
    ⟨by norm_num [Logit.tol],
      C1_roundtrip.2.2.1 1 (by norm_num [Logit.tol])⟩,
    C1_roundtrip.2.2.2.1 id id (1/2) (by norm_num [Logit.tol])
      (by norm_num [Logit.tol]) rfl,
    C1_roundtrip.2.2.2.2.1 (1/2) (by norm_num [Logit.tol]) (by norm_num [Logit.tol]),
    C1_roundtrip.2.2.2.2.2 1 1⟩

/-- C6: `Log.__call__` does *not* clamp: the clipped value is computed into a
dead local and the source returns `np.log(p)` of the raw argument, so
`call(p) = log p` for every `p`, and at `p = 0` the result differs from the
claimed clamped value `log (max 0 tol) = log 1e-10`.  (In floating point the
unclamped `np.log(0.0)` is `-inf`.) -/
theorem C6_log_clamp_dropped :
    (∀ p : ℝ, Log.call p = Real.log p)
    ∧ Log.call 0 ≠ Real.log (max 0 Logit.tol) := by
  constructor
  · intro p; rfl
  · have h0 : Log.call 0 = 0 := by
      show Real.log 0 = 0
      exact Real.log_zero
    have hmax : max (0:ℝ) Logit.tol = 1e-10 := by
      rw [max_eq_right (by norm_num [Logit.tol] : (0:ℝ) ≤ Logit.tol)]
      norm_num [Logit.tol]
    have hneg : Real.log (max 0 Logit.tol) < 0 := by
      rw [hmax]; exact Real.log_neg (by norm_num) (by norm_num)
    rw [h0]
    exact (ne_of_lt hneg).symm

/-- C7: `NegativeBinomial.__call__` raises `NameError` on every input (its
body reads a variable `p` that is never bound; the parameter is named `x`),
so it never returns `log(p/(p+1/alpha))`. -/
theorem C7_nb_call_raises :
    ∀ alpha p : ℝ, NegativeBinomial.call alpha p = none :=
  fun _ _ => rfl

/-- C8: Logit clamps the domain edges: `Logit()(0.0) = log(tol/(1-tol))` and
`Logit()(1.0) = log((1-tol)/tol)` with `tol = 1e-10`; both are finite reals. -/
theorem C8_logit_edges :
    Logit.call 0 = Real.log (Logit.tol / (1 - Logit.tol))
    ∧ Logit.call 1 = Real.log ((1 - Logit.tol) / Logit.tol) := by
  have h0 : Logit.clean 0 = Logit.tol := by
    unfold Logit.clean
    rw [max_eq_right (by norm_num [Logit.tol] : (0:ℝ) ≤ Logit.tol),
      min_eq_left (by norm_num [Logit.tol] : Logit.tol ≤ 1 - Logit.tol)]
  have h1 : Logit.clean 1 = 1 - Logit.tol := by
    unfold Logit.clean
    rw [max_eq_left (by norm_num [Logit.tol] : Logit.tol ≤ 1),
      min_eq_right (by norm_num [Logit.tol] : 1 - Logit.tol ≤ 1)]
  constructor
  · unfold Logit.call
    rw [h0]
  · unfold Logit.call
    rw [h1]
    norm_num

/-! ## nipy/fixes/scipy/stats/models/tools.py -/

/-- `recipr(X)`:
`x = np.maximum(X, 0); return np.greater(x, 0.) / (x + np.less_equal(x, 0.))`
(numpy booleans coerce to `1`/`0`). -/
noncomputable def recipr (X : ℝ) : ℝ :=
  (if 0 < max X 0 then (1:ℝ) else 0) / (max X 0 + if max X 0 ≤ 0 then 1 else 0)

theorem recipr_of_nonpos {X : ℝ} (h : X ≤ 0) : recipr X = 0 := by
  unfold recipr
  rw [max_eq_right h]
  norm_num

theorem recipr_of_pos {X : ℝ} (h : 0 < X) : recipr X = 1 / X := by
  unfold recipr
  rw [max_eq_left h.le, if_pos h, if_neg (not_le.mpr h)]
  norm_num

/-- `isestimable(C, D)`: returns whether `rank(np.vstack([C, D])) == rank(D)`.
The numerical `rank` (SVD singular values above a relative `1e-12` cutoff) is
the external linear-algebra collaborator; in exact arithmetic it is the
mathematical rank `Matrix.rank`. -/
def isestimable {q n p : ℕ} (C : Matrix (Fin q) (Fin p) ℝ)
    (D : Matrix (Fin n) (Fin p) ℝ) : Prop :=
  (Matrix.fromRows C D).rank = D.rank

/-! ## scikits/statsmodels/model.py : LikelihoodModelResults

The results container holds the fitted `params`, the `normalized_cov_params`
matrix (the claims quantify over results objects whose covariance is
available, so the field is total here), the dispersion `scale`, and the
originating model residual degrees of freedom `df_resid`. -/

structure Results (pp : ℕ) where
  params : Fin pp → ℝ
  normalized_cov_params : Matrix (Fin pp) (Fin pp) ℝ
  scale : ℝ
  df_resid : ℕ

/-- Column selector argument of `cov_params`: `np.asarray(column)` is either
0-dimensional (one index) or 1-dimensional (a list of indices). -/
inductive ColSpec (pp : ℕ) where
  | scalar (i : Fin pp) : ColSpec pp
  | vec (c : ℕ) (f : Fin c → Fin pp) : ColSpec pp

/-- Result of `cov_params`: a 0-d scalar or a 2-d array. -/
inductive CovOut where
  | scalar (x : ℝ) : CovOut
  | mat (a b : ℕ) (M : Matrix (Fin a) (Fin b) ℝ) : CovOut

/-- `LikelihoodModelResults.cov_params(r_matrix=None, column=None, scale=None,
other=None)`, mirroring the source checks in order:
raise if `column` is given together with `r_matrix` or `other`; raise if
`other` is given without `r_matrix`; default `scale` to `self.scale`; then
return the column-selected entries, the sandwich
`r_matrix · Σ · otherᵀ · scale` (with `other` defaulting to `r_matrix`), or
the whole matrix `Σ · scale`. -/
noncomputable def cov_params {pp : ℕ} (res : Results pp)
    (r_matrix : Option ((q : ℕ) × Matrix (Fin q) (Fin pp) ℝ))
    (column : Option (ColSpec pp)) (scale : Option ℝ)
    (other : Option ((q : ℕ) × Matrix (Fin q) (Fin pp) ℝ)) :
    Except String CovOut :=
  if column.isSome && (r_matrix.isSome || other.isSome) then
    Except.error "Column should be specified without other arguments."
  else if other.isSome && r_matrix.isNone then
    Except.error "other can only be specified with r_matrix"
  else
    let s := scale.getD res.scale
    match column with
    | some (ColSpec.scalar i) =>
        Except.ok (CovOut.scalar (res.normalized_cov_params i i * s))
    | some (ColSpec.vec c f) =>
        Except.ok (CovOut.mat c c
          ((res.normalized_cov_params.submatrix f f).map (· * s)))
    | none =>
        match r_matrix with
        | some r =>
            let o := other.getD r
            Except.ok (CovOut.mat r.1 o.1
              ((r.2 * (res.normalized_cov_params * o.2ᵀ)).map (· * s)))
        | none =>
            Except.ok (CovOut.mat pp pp (res.normalized_cov_params.map (· * s)))

/-- The value `cov_params(r_matrix=r)` computes when `r` is a length-`p`
row vector (the `t_test` call site, where `r_matrix` is squeezed to 1-d and
`other` defaults to `r_matrix`): `np.dot(r, np.dot(Σ, r)) * scale`. -/
noncomputable def cov_params_r1d {pp : ℕ} (res : Results pp) (r : Fin pp → ℝ) : ℝ :=
  (r ⬝ᵥ (res.normalized_cov_params *ᵥ r)) * res.scale

/-- The 2-d sandwich `np.dot(r, np.dot(Σ, other.T)) * scale` used by
`f_test` through `cov_params(r_matrix=r_matrix)`. -/
noncomputable def cov_params_sandwich {pp q q2 : ℕ} (res : Results pp)
    (r : Matrix (Fin q) (Fin pp) ℝ) (other : Matrix (Fin q2) (Fin pp) ℝ) :
    Matrix (Fin q) (Fin q2) ℝ :=
  (r * (res.normalized_cov_params * otherᵀ)).map (· * res.scale)

/-- t-test outcome container (`ContrastResults` with `t`, `sd`, `effect`,
`df_denom`). -/
structure TContrast where
  effect : ℝ
  sd : ℝ
  t : ℝ
  df_denom : ℕ

/-- F-test outcome container (`ContrastResults` with `F`, `df_denom`,
`df_num`). -/
structure FContrast where
  F : ℝ
  df_denom : ℕ
  df_num : ℕ

/-- `LikelihoodModelResults.t_test(r_matrix)` for a single row contrast
(the source squeezes `r_matrix` to 1-d):
`_effect = np.dot(r_matrix, self.params)`,
`_sd = np.sqrt(self.cov_params(r_matrix=r_matrix))`,
`_t = _effect * recipr(_sd)`, reported against `df_denom = model.df_resid`. -/
noncomputable def t_test {pp : ℕ} (res : Results pp) (r : Fin pp → ℝ) : TContrast :=
  let e := r ⬝ᵥ res.params
  let sd := Real.sqrt (cov_params_r1d res r)
  { effect := e, sd := sd, t := e * recipr sd, df_denom := res.df_resid }

/-- `LikelihoodModelResults.f_test(r_matrix, q_matrix=None, scale=1.0,
invcov=None)` for a `q × p` contrast matrix:
`cparams = np.dot(r_matrix, params)`, `J = q`, `q_matrix` defaults to zeros,
`Rbq = cparams - q_matrix`,
`invcov = np.linalg.inv(self.cov_params(r_matrix=r_matrix))` unless supplied,
`F = np.dot(np.dot(Rbq.T, invcov), Rbq) / J`, `df_num = invcov.shape[0]`.
(The `scale` parameter of the source is never used in the body.) -/
noncomputable def f_test {pp q : ℕ} (res : Results pp)
    (r : Matrix (Fin q) (Fin pp) ℝ) (q_matrix : Option (Fin q → ℝ))
    (invcov : Option (Matrix (Fin q) (Fin q) ℝ)) : FContrast :=
  let cparams := r *ᵥ res.params
  let J : ℝ := q
  let Rbq := cparams - q_matrix.getD 0
  let ic := invcov.getD (cov_params_sandwich res r r)⁻¹
  { F := (Rbq ⬝ᵥ (ic *ᵥ Rbq)) / J, df_denom := res.df_resid, df_num := q }

/-! ### Claims about the results container -/

/-- C2: for a single-row contrast with strictly positive (scaled) variance
`r·Σ·rᵀ·scale`, the F statistic equals the square of the t statistic, and
`f_test` reports `df_num = 1` and `df_denom = model.df_resid`. -/
theorem C2_f_test_eq_t_test_sq {pp : ℕ} (res : Results pp) (r : Fin pp → ℝ)
    (h : 0 < cov_params_r1d res r) :
    (f_test res (Matrix.of fun _ : Fin 1 => r) none none).F = (t_test res r).t ^ 2
    ∧ (f_test res (Matrix.of fun _ : Fin 1 => r) none none).df_num = 1
    ∧ (f_test res (Matrix.of fun _ : Fin 1 => r) none none).df_denom = res.df_resid := by
  refine ⟨?_, rfl, rfl⟩
  have hsand : cov_params_sandwich res (Matrix.of fun _ : Fin 1 => r)
      (Matrix.of fun _ : Fin 1 => r) = fun _ _ => cov_params_r1d res r := by
    funext i j
    simp [cov_params_sandwich, cov_params_r1d, Matrix.mul_apply, Matrix.mulVec,
      Matrix.dotProduct, Finset.mul_sum, Finset.sum_mul, mul_assoc]
  have hinv : (cov_params_sandwich res (Matrix.of fun _ : Fin 1 => r)
      (Matrix.of fun _ : Fin 1 => r))⁻¹
      = fun _ _ => (cov_params_r1d res r)⁻¹ := by
    rw [Matrix.inv_def, Matrix.adjugate_fin_one, Matrix.det_fin_one, hsand]
    funext i j
    simp [Matrix.smul_apply, Ring.inverse_eq_inv, Fin.eq_zero i, Fin.eq_zero j,
      Matrix.one_apply]
  have hsd : Real.sqrt (cov_params_r1d res r) > 0 := Real.sqrt_pos.mpr h
  have hsq : Real.sqrt (cov_params_r1d res r) ^ 2 = cov_params_r1d res r :=
    Real.sq_sqrt h.le
  simp only [f_test, t_test, Option.getD_none, hinv, recipr_of_pos hsd,
    Matrix.dotProduct, Fin.sum_univ_one, Matrix.mulVec, Matrix.of_apply,
    Pi.sub_apply, Pi.zero_apply, sub_zero, Nat.cast_one]
  rw [mul_pow, div_pow, one_pow, hsq]
  field_simp
  ring

/-- Concrete instantiation of C2: one parameter, identity covariance,
unit scale, `r = (1)`. -/
noncomputable def resW : Results 1 :=
  { params := fun _ => 3
    normalized_cov_params := 1
    scale := 1
    df_resid := 7 }

theorem C2_f_test_eq_t_test_sq_witness :
    0 < cov_params_r1d resW (fun _ => 1)
    ∧ ((f_test resW (Matrix.of fun _ : Fin 1 => fun _ => 1) none none).F
        = (t_test resW (fun _ => 1)).t ^ 2
      ∧ (f_test resW (Matrix.of fun _ : Fin 1 => fun _ => 1) none none).df_num = 1
      ∧ (f_test resW (Matrix.of fun _ : Fin 1 => fun _ => 1) none none).df_denom
        = resW.df_resid) := by
  have h : 0 < cov_params_r1d resW (fun _ => 1) := by
    simp [cov_params_r1d, resW, Matrix.one_mulVec, Matrix.dotProduct]
  exact ⟨h, C2_f_test_eq_t_test_sq resW (fun _ => 1) h⟩

/-- C9: the argument-combination contract of `cov_params`: `column` with
`r_matrix` or `other` is an error; `other` without `r_matrix` is an error;
otherwise the whole scaled matrix (no `r_matrix`, no `column`), the sandwich
with `other` defaulting to `r_matrix`, or the column-selected scaled entries
are returned. -/
theorem C9_cov_params_contract {pp : ℕ} (res : Results pp) (sc : Option ℝ) :
    (∀ (c : ColSpec pp) (rm other), cov_params res (some rm) (some c) sc other
      = Except.error "Column should be specified without other arguments.")
    ∧ (∀ (c : ColSpec pp) (o), cov_params res none (some c) sc (some o)
      = Except.error "Column should be specified without other arguments.")
    ∧ (∀ o, cov_params res none none sc (some o)
      = Except.error "other can only be specified with r_matrix")
    ∧ (cov_params res none none sc none
      = Except.ok (CovOut.mat pp pp
          (res.normalized_cov_params.map (· * sc.getD res.scale))))
    ∧ (∀ (r : (q : ℕ) × Matrix (Fin q) (Fin pp) ℝ) (other),
        cov_params res (some r) none sc other
      = Except.ok (CovOut.mat r.1 (other.getD r).1
          ((r.2 * (res.normalized_cov_params * (other.getD r).2ᵀ)).map
            (· * sc.getD res.scale))))
    ∧ (∀ i : Fin pp, cov_params res none (some (ColSpec.scalar i)) sc none
      = Except.ok (CovOut.scalar (res.normalized_cov_params i i * sc.getD res.scale)))
    ∧ (∀ (c : ℕ) (f : Fin c → Fin pp),
        cov_params res none (some (ColSpec.vec c f)) sc none
      = Except.ok (CovOut.mat c c
          ((res.normalized_cov_params.submatrix f f).map (· * sc.getD res.scale)))) := by
  refine ⟨fun c rm other => rfl, fun c o => rfl, fun o => rfl, rfl, ?_, fun i => rfl,
    fun c f => rfl⟩
  intro r other
  cases other <;> rfl

/-- C10: `recipr` maps every non-positive entry to `0`, so a single-row
contrast whose (scaled) variance is not strictly positive gets the t
statistic `effect * recipr(sd) = effect * 0 = 0` instead of a division by
zero (for instance the all-zero contrast vector). -/
theorem C10_t_test_no_div_by_zero :
    (∀ X : ℝ, X ≤ 0 → recipr X = 0)
    ∧ (∀ (pp : ℕ) (res : Results pp) (r : Fin pp → ℝ),
        cov_params_r1d res r ≤ 0 → (t_test res r).t = 0) := by
  refine ⟨fun X h => recipr_of_nonpos h, fun pp res r h => ?_⟩
  have hsd : Real.sqrt (cov_params_r1d res r) = 0 := Real.sqrt_eq_zero'.mpr h
  show (r ⬝ᵥ res.params) * recipr (Real.sqrt (cov_params_r1d res r)) = 0
  rw [hsd, recipr_of_nonpos le_rfl, mul_zero]

theorem C10_t_test_no_div_by_zero_witness :
    ((-1 : ℝ) ≤ 0 ∧ recipr (-1) = 0)
    ∧ (cov_params_r1d resW (fun _ => 0) ≤ 0
      ∧ (t_test resW (fun _ => 0)).t = 0) := by
  have h : cov_params_r1d resW (fun _ => 0) ≤ 0 := by
    simp [cov_params_r1d, resW, Matrix.dotProduct]
  exact ⟨⟨by norm_num, C10_t_test_no_div_by_zero.1 (-1) (by norm_num)⟩,
    ⟨h, C10_t_test_no_div_by_zero.2 1 resW (fun _ => 0) h⟩⟩

/-! ## nipy/fixes/scipy/stats/models/contrast.py : contrastfromcols

`numpy.linalg.pinv` (the Moore-Penrose pseudo-inverse) and
`tools.fullrank` (an SVD-based full-column-rank basis of the column space)
are external linear-algebra collaborators.  They enter the embedding as the
value `P` the pseudo-inverse call returns for the design `D`, and the value
`frLp` the `fullrank(Lp)` call returns, each constrained in the theorems by
its documented contract.  Numerical `rank` is the mathematical rank in
exact arithmetic. -/

/-- An untyped-shape real matrix, needed because `contrastfromcols`
dispatches on the runtime shape of its argument `L`. -/
structure MatR where
  rows : ℕ
  cols : ℕ
  entry : Matrix (Fin rows) (Fin cols) ℝ

/-- Reindex a matrix along an equality of row counts. -/
def castRows {m m2 c : ℕ} (h : m = m2) (A : Matrix (Fin m) (Fin c) ℝ) :
    Matrix (Fin m2) (Fin c) ℝ :=
  A.submatrix (Fin.cast h.symm) id

/-- Reindex a matrix along an equality of column counts. -/
def castCols {r m m2 : ℕ} (h : m = m2) (A : Matrix (Fin r) (Fin m) ℝ) :
    Matrix (Fin r) (Fin m2) ℝ :=
  A.submatrix id (Fin.cast h.symm)

/-- The tail of `contrastfromcols`: `Lp = np.dot(D, C.T)`; if
`rank(Lp) != Lp.shape[1]` then `Lp = fullrank(Lp); C = np.dot(pseudo, Lp).T`.
`frLp` is the value the external `fullrank(Lp)` call returns (an `n × r`
matrix packed with its column count). -/
noncomputable def rankFallback {n p q : ℕ} (D : Matrix (Fin n) (Fin p) ℝ)
    (P : Matrix (Fin p) (Fin n) ℝ) (C : Matrix (Fin q) (Fin p) ℝ)
    (frLp : (r : ℕ) × Matrix (Fin n) (Fin r) ℝ) :
    (q2 : ℕ) × Matrix (Fin q2) (Fin p) ℝ :=
  if (D * Cᵀ).rank = q then ⟨q, C⟩ else ⟨frLp.1, (P * frLp.2)ᵀ⟩

/-- `contrastfromcols(L, D, pseudo=None)`:
raise `ValueError('shape of L and D mismatched')` when
`L.shape[0] != n and L.shape[1] != p`; then
`C = np.dot(pseudo, L).T` when `L.shape[0] == n`, else
`C = L; C = np.dot(pseudo, np.dot(D, C.T)).T`; finally the rank fallback.
(The trailing `np.squeeze` only drops size-one axes and is not modelled.) -/
noncomputable def contrastfromcols (L D : MatR)
    (P : Matrix (Fin D.cols) (Fin D.rows) ℝ)
    (frLp : (r : ℕ) × Matrix (Fin D.rows) (Fin r) ℝ) :
    Except String ((q : ℕ) × Matrix (Fin q) (Fin D.cols) ℝ) :=
  if L.rows ≠ D.rows ∧ L.cols ≠ D.cols then
    Except.error "shape of L and D mismatched"
  else if h : L.rows = D.rows then
    Except.ok (rankFallback D.entry P ((P * castRows h L.entry)ᵀ) frLp)
  else if h2 : L.cols = D.cols then
    Except.ok (rankFallback D.entry P
      ((P * (D.entry * (castCols h2 L.entry)ᵀ))ᵀ) frLp)
  else
    Except.error "shape of L and D mismatched"

/-! ### Rank helper lemmas -/

theorem range_mulVecLin_fromColumns {m n1 n2 : Type*} [Fintype n1] [Fintype n2]
    (A : Matrix m n1 ℝ) (B : Matrix m n2 ℝ) :
    LinearMap.range (Matrix.fromColumns A B).mulVecLin
      = LinearMap.range A.mulVecLin ⊔ LinearMap.range B.mulVecLin := by
  apply le_antisymm
  · rintro x ⟨v, rfl⟩
    have hv : v = Sum.elim (v ∘ Sum.inl) (v ∘ Sum.inr) := by
      funext s; cases s <;> rfl
    rw [Matrix.mulVecLin_apply, hv, Matrix.fromColumns_mulVec_sum_elim]
    exact Submodule.add_mem_sup ⟨v ∘ Sum.inl, rfl⟩ ⟨v ∘ Sum.inr, rfl⟩
  · rw [sup_le_iff]
    constructor
    · rintro x ⟨v, rfl⟩
      refine ⟨Sum.elim v 0, ?_⟩
      rw [Matrix.mulVecLin_apply, Matrix.fromColumns_mulVec_sum_elim,
        Matrix.mulVec_zero, add_zero, Matrix.mulVecLin_apply]
    · rintro x ⟨v, rfl⟩
      refine ⟨Sum.elim 0 v, ?_⟩
      rw [Matrix.mulVecLin_apply, Matrix.fromColumns_mulVec_sum_elim,
        Matrix.mulVec_zero, zero_add, Matrix.mulVecLin_apply]

theorem rank_fromRows_eq_of_range_le {q n p : ℕ}
    (C : Matrix (Fin q) (Fin p) ℝ) (D : Matrix (Fin n) (Fin p) ℝ)
    (h : LinearMap.range Cᵀ.mulVecLin ≤ LinearMap.range Dᵀ.mulVecLin) :
    (Matrix.fromRows C D).rank = D.rank := by
  rw [← Matrix.rank_transpose (Matrix.fromRows C D), Matrix.transpose_fromRows,
    ← Matrix.rank_transpose D]
  unfold Matrix.rank
  rw [range_mulVecLin_fromColumns, sup_eq_right.mpr h]

theorem range_mul_le {a b c : ℕ} (A : Matrix (Fin a) (Fin b) ℝ)
    (B : Matrix (Fin b) (Fin c) ℝ) :
    LinearMap.range (A * B).mulVecLin ≤ LinearMap.range A.mulVecLin := by
  rw [Matrix.mulVecLin_mul]
  exact LinearMap.range_comp_le_range _ _

/-- Moore-Penrose contract consequence: two of the four Penrose conditions,
`P D P = P` and the symmetry of `P D`, force the column space of the
pseudo-inverse into the row space of the design. -/
theorem range_pinv_le {n p : ℕ} (D : Matrix (Fin n) (Fin p) ℝ)
    (P : Matrix (Fin p) (Fin n) ℝ)
    (h1 : P * D * P = P) (h2 : (P * D)ᵀ = P * D) :
    LinearMap.range P.mulVecLin ≤ LinearMap.range Dᵀ.mulVecLin := by
  have hP : P = Dᵀ * (Pᵀ * P) := by
    calc P = P * D * P := h1.symm
    _ = (P * D)ᵀ * P := by rw [h2]
    _ = Dᵀ * Pᵀ * P := by rw [Matrix.transpose_mul]
    _ = Dᵀ * (Pᵀ * P) := by rw [Matrix.mul_assoc]
  calc LinearMap.range P.mulVecLin
      = LinearMap.range (Dᵀ * (Pᵀ * P)).mulVecLin := by rw [← hP]
    _ ≤ LinearMap.range Dᵀ.mulVecLin := range_mul_le _ _

/-- Any contrast of the form `(P · M)ᵀ` is estimable for the design `D` when
`P` satisfies the pseudo-inverse contract for `D`. -/
theorem isestimable_pinv_mul {n p k : ℕ} (D : Matrix (Fin n) (Fin p) ℝ)
    (P : Matrix (Fin p) (Fin n) ℝ)
    (h1 : P * D * P = P) (h2 : (P * D)ᵀ = P * D)
    (M : Matrix (Fin n) (Fin k) ℝ) :
    isestimable (P * M)ᵀ D := by
  unfold isestimable
  apply rank_fromRows_eq_of_range_le
  rw [Matrix.transpose_transpose]
  exact le_trans (range_mul_le P M) (range_pinv_le D P h1 h2)

/-- If every column of `F` lies in the column space of `D` and
`D P D = D`, then `D P` fixes `F`. -/
theorem mul_pinv_mul_of_range_le {n p r : ℕ} (D : Matrix (Fin n) (Fin p) ℝ)
    (P : Matrix (Fin p) (Fin n) ℝ) (hd : D * P * D = D)
    (F : Matrix (Fin n) (Fin r) ℝ)
    (hF : LinearMap.range F.mulVecLin ≤ LinearMap.range D.mulVecLin) :
    D * P * F = F := by
  ext i j
  have hcol : (fun i2 => F i2 j) ∈ LinearMap.range D.mulVecLin := by
    apply hF
    exact ⟨Pi.single j 1, by simp [Matrix.mulVecLin_apply]⟩
  obtain ⟨y, hy⟩ := hcol
  have hy2 : D *ᵥ y = fun i2 => F i2 j := hy
  have hvec : (D * P) *ᵥ (D *ᵥ y) = D *ᵥ y := by
    rw [Matrix.mulVec_mulVec, hd]
  have hentry : (D * P * F) i j = ((D * P) *ᵥ (fun k => F k j)) i := by
    simp [Matrix.mul_apply, Matrix.mulVec, Matrix.dotProduct]
  rw [hentry, ← hy2, hvec, hy2]

/-! ### Claims about the contrast engine -/

/-- C3: whenever `contrastfromcols` succeeds (under the Moore-Penrose
contract for the external `pinv`), the returned contrast passes the
`isestimable` check against the design. -/
theorem C3_contrast_estimable (L D : MatR)
    (P : Matrix (Fin D.cols) (Fin D.rows) ℝ)
    (frLp : (r : ℕ) × Matrix (Fin D.rows) (Fin r) ℝ)
    (h1 : P * D.entry * P = P) (h2 : (P * D.entry)ᵀ = P * D.entry) :
    ∀ out, contrastfromcols L D P frLp = Except.ok out →
      isestimable out.2 D.entry := by
  have key : ∀ (k : ℕ) (M : Matrix (Fin D.rows) (Fin k) ℝ),
      isestimable (rankFallback D.entry P (P * M)ᵀ frLp).2 D.entry := by
    intro k M
    by_cases hrk : (D.entry * ((P * M)ᵀ)ᵀ).rank = k
    · unfold rankFallback
      rw [if_pos hrk]
      exact isestimable_pinv_mul D.entry P h1 h2 M
    · unfold rankFallback
      rw [if_neg hrk]
      exact isestimable_pinv_mul D.entry P h1 h2 frLp.2
  intro out hout
  unfold contrastfromcols at hout
  split at hout
  · simp at hout
  · split at hout
    · injection hout with h3
      subst h3
      exact key _ _
    · split at hout
      · injection hout with h3
        subst h3
        exact key _ _
      · simp at hout

/-- C4: under the pseudo-inverse contract `D P D = D` and the `fullrank`
contract (output of full column rank spanning within the design column
space), `contrastfromcols` succeeds on every shape-compatible request and
the projection `D · Cᵀ` of the returned contrast has full column rank. -/
theorem C4_rank_fallback (L D : MatR)
    (P : Matrix (Fin D.cols) (Fin D.rows) ℝ)
    (frLp : (r : ℕ) × Matrix (Fin D.rows) (Fin r) ℝ)
    (hcompat : L.rows = D.rows ∨ L.cols = D.cols)
    (hd : D.entry * P * D.entry = D.entry)
    (hfr1 : frLp.2.rank = frLp.1)
    (hfr2 : LinearMap.range frLp.2.mulVecLin
      ≤ LinearMap.range D.entry.mulVecLin) :
    ∃ out, contrastfromcols L D P frLp = Except.ok out
      ∧ (D.entry * out.2ᵀ).rank = out.1 := by
  have key : ∀ (q : ℕ) (C : Matrix (Fin q) (Fin D.cols) ℝ),
      (D.entry * (rankFallback D.entry P C frLp).2ᵀ).rank
        = (rankFallback D.entry P C frLp).1 := by
    intro q C
    by_cases hrk : (D.entry * Cᵀ).rank = q
    · unfold rankFallback
      rw [if_pos hrk]
      exact hrk
    · unfold rankFallback
      rw [if_neg hrk]
      show (D.entry * ((P * frLp.2)ᵀ)ᵀ).rank = frLp.1
      rw [Matrix.transpose_transpose, ← Matrix.mul_assoc,
        mul_pinv_mul_of_range_le D.entry P hd frLp.2 hfr2]
      exact hfr1
  unfold contrastfromcols
  split
  · rename_i hcond
    rcases hcompat with hc | hc
    · exact absurd hc hcond.1
    · exact absurd hc hcond.2
  · split
    · exact ⟨_, rfl, key _ _⟩
    · split
      · exact ⟨_, rfl, key _ _⟩
      · rename_i h0 hA hB
        exact absurd ⟨hA, hB⟩ h0

/-- C5: the orientation dispatch of `contrastfromcols`: a request with `n`
rows is projected through the pseudo-inverse, otherwise a request with `p`
columns is treated as a contrast matrix (and projected), and a request
matching neither dimension fails with the shape-mismatch error. -/
theorem C5_orientation (L D : MatR)
    (P : Matrix (Fin D.cols) (Fin D.rows) ℝ)
    (frLp : (r : ℕ) × Matrix (Fin D.rows) (Fin r) ℝ) :
    (∀ h : L.rows = D.rows,
      contrastfromcols L D P frLp
        = Except.ok (rankFallback D.entry P ((P * castRows h L.entry)ᵀ) frLp))
    ∧ (L.rows ≠ D.rows → ∀ h2 : L.cols = D.cols,
      contrastfromcols L D P frLp
        = Except.ok (rankFallback D.entry P
            ((P * (D.entry * (castCols h2 L.entry)ᵀ))ᵀ) frLp))
    ∧ (L.rows ≠ D.rows → L.cols ≠ D.cols →
      contrastfromcols L D P frLp
        = Except.error "shape of L and D mismatched") := by
  refine ⟨?_, ?_, ?_⟩
  · intro h
    unfold contrastfromcols
    rw [if_neg (by simp [h]), dif_pos h]
  · intro hne h2
    unfold contrastfromcols
    rw [if_neg (by simp [h2]), dif_neg hne, dif_pos h2]
  · intro hr hc
    unfold contrastfromcols
    rw [if_pos ⟨hr, hc⟩]

/-! ### Concrete instances for the contrast witnesses -/

abbrev D1 : MatR := ⟨1, 1, (1 : Matrix (Fin 1) (Fin 1) ℝ)⟩

abbrev L1 : MatR := ⟨1, 1, (1 : Matrix (Fin 1) (Fin 1) ℝ)⟩

abbrev L21 : MatR := ⟨2, 1, (0 : Matrix (Fin 2) (Fin 1) ℝ)⟩

abbrev L22 : MatR := ⟨2, 2, (0 : Matrix (Fin 2) (Fin 2) ℝ)⟩

abbrev P1 : Matrix (Fin 1) (Fin 1) ℝ := 1

abbrev fr1 : (r : ℕ) × Matrix (Fin 1) (Fin r) ℝ := ⟨1, (1 : Matrix (Fin 1) (Fin 1) ℝ)⟩

theorem C3_contrast_estimable_witness :
    (P1 * D1.entry * P1 = P1) ∧ ((P1 * D1.entry)ᵀ = P1 * D1.entry)
    ∧ (∀ out, contrastfromcols L1 D1 P1 fr1 = Except.ok out →
        isestimable out.2 D1.entry) := by
  have h1 : P1 * D1.entry * P1 = P1 := by simp [P1, D1]
  have h2 : (P1 * D1.entry)ᵀ = P1 * D1.entry := by simp [P1, D1]
  exact ⟨h1, h2, C3_contrast_estimable L1 D1 P1 fr1 h1 h2⟩

theorem C4_rank_fallback_witness :
    (L1.rows = D1.rows ∨ L1.cols = D1.cols)
    ∧ (D1.entry * P1 * D1.entry = D1.entry)
    ∧ (fr1.2.rank = fr1.1)
    ∧ (LinearMap.range fr1.2.mulVecLin ≤ LinearMap.range D1.entry.mulVecLin)
    ∧ (∃ out, contrastfromcols L1 D1 P1 fr1 = Except.ok out
        ∧ (D1.entry * out.2ᵀ).rank = out.1) := by
  have hcompat : L1.rows = D1.rows ∨ L1.cols = D1.cols := Or.inl rfl
  have hd : D1.entry * P1 * D1.entry = D1.entry := by simp [P1, D1]
  have hfr1 : fr1.2.rank = fr1.1 := by
    show (1 : Matrix (Fin 1) (Fin 1) ℝ).rank = 1
    simp
  have hfr2 : LinearMap.range fr1.2.mulVecLin
      ≤ LinearMap.range D1.entry.mulVecLin := le_of_eq rfl
  exact ⟨hcompat, hd, hfr1, hfr2,
    C4_rank_fallback L1 D1 P1 fr1 hcompat hd hfr1 hfr2⟩

theorem C5_orientation_witness :
    (contrastfromcols L1 D1 P1 fr1
      = Except.ok (rankFallback D1.entry P1 ((P1 * castRows rfl L1.entry)ᵀ) fr1))
    ∧ (contrastfromcols L21 D1 P1 fr1
      = Except.ok (rankFallback D1.entry P1
          ((P1 * (D1.entry * (castCols rfl L21.entry)ᵀ))ᵀ) fr1))
    ∧ (contrastfromcols L22 D1 P1 fr1
      = Except.error "shape of L and D mismatched") :=
  ⟨(C5_orientation L1 D1 P1 fr1).1 rfl,
    (C5_orientation L21 D1 P1 fr1).2.1 (by decide) rfl,
    (C5_orientation L22 D1 P1 fr1).2.2 (by decide) (by decide)⟩

end Statsmodels
